import Mathlib

/-!
Verification of the YOLO-Annotator annotation engine (src/app.py).

The development shallowly embeds the parts of the program the claims are
about: the `BoundingBox` data class with its YOLO codec
(`to_yolo_format` / `from_yolo_format`), the `AnnotationScene` document
state with its mutating operations (`mouseReleaseEvent` commit,
`delete_selected_boxes`), the undo/redo history (`save_state`, `undo`,
`redo`, `restore_state`), the `ResizeHandle.mouseMoveEvent` resize logic,
the `MainWindow.load_annotations` loader and the class-list writers
(`save_classes`, `save_classes_file`).

Real numbers of the Python program (Qt `QRectF` coordinates, normalized
YOLO fields) are modelled as rationals; fixed 6-decimal formatting is
modelled as exact rounding to the nearest multiple of 10⁻⁶.
-/

namespace YoloAnnotator

/-- RGBA color, modelling Qt `QColor`. -/
structure Color where
  r : Nat
  g : Nat
  b : Nat
  a : Nat
deriving DecidableEq, Repr

/-- Rectangle in pixel space, modelling Qt `QRectF` storage: origin `(x, y)`
(top-left) plus signed width and height. -/
structure Rect where
  x : ℚ
  y : ℚ
  w : ℚ
  h : ℚ
deriving DecidableEq, Repr

namespace Rect

/-- Left edge, `QRectF.left()`. -/
def left (r : Rect) : ℚ := r.x

/-- Top edge, `QRectF.top()`. -/
def top (r : Rect) : ℚ := r.y

/-- Right edge, `QRectF.right() = x + w`. -/
def right (r : Rect) : ℚ := r.x + r.w

/-- Bottom edge, `QRectF.bottom() = y + h`. -/
def bottom (r : Rect) : ℚ := r.y + r.h

/-- `QRectF.setTop`: moves the top edge, keeping the bottom edge fixed. -/
def setTop (r : Rect) (t : ℚ) : Rect := { r with y := t, h := r.y + r.h - t }

/-- `QRectF.setBottom`: moves the bottom edge, keeping the top edge fixed. -/
def setBottom (r : Rect) (b : ℚ) : Rect := { r with h := b - r.y }

/-- `QRectF.setLeft`: moves the left edge, keeping the right edge fixed. -/
def setLeft (r : Rect) (l : ℚ) : Rect := { r with x := l, w := r.x + r.w - l }

/-- `QRectF.setRight`: moves the right edge, keeping the left edge fixed. -/
def setRight (r : Rect) (rt : ℚ) : Rect := { r with w := rt - r.x }

/-- `QRectF.normalized()`: a rectangle with non-negative width and height
covering the same corners. -/
def normalized (r : Rect) : Rect :=
  { x := min r.left r.right, y := min r.top r.bottom,
    w := max r.left r.right - min r.left r.right,
    h := max r.top r.bottom - min r.top r.bottom }

end Rect

/-- The `BoundingBox` data class of `app.py` (the live Qt
`graphics_item` render handle is not part of the data model). -/
structure BoundingBox where
  rect : Rect
  class_id : ℤ
  class_name : String
  color : Option Color := none
deriving DecidableEq, Repr

/-- The geometry-and-class projection of a box: the fields the history
snapshots are specified to preserve. -/
def boxData (b : BoundingBox) : Rect × ℤ × String :=
  (b.rect, b.class_id, b.class_name)

/-- Deep copy of a box as performed by `save_state` / `undo` / `redo` /
`restore_state`: `BoundingBox(QRectF(bbox.rect), bbox.class_id,
bbox.class_name)` — constructed without the `color` field, which therefore
defaults to `None`. -/
def stripBox (b : BoundingBox) : BoundingBox :=
  { rect := b.rect, class_id := b.class_id, class_name := b.class_name, color := none }

/-- Snapshot of a box list (`save_state`'s deep copy of `self.boxes`). -/
def snap (bs : List BoundingBox) : List BoundingBox := bs.map stripBox

/-- The default class palette `AnnotationScene.class_colors` (8 colors,
alpha 150). -/
def class_colors : List Color :=
  [⟨0, 255, 0, 150⟩, ⟨255, 0, 0, 150⟩, ⟨0, 0, 255, 150⟩, ⟨255, 255, 0, 150⟩,
   ⟨255, 0, 255, 150⟩, ⟨0, 255, 255, 150⟩, ⟨255, 128, 0, 150⟩, ⟨128, 0, 255, 150⟩]

/-- The document/scene state of `AnnotationScene` (fields the verified
operations read or write). -/
structure Scene where
  boxes : List BoundingBox
  selected_box : Option BoundingBox
  current_class_id : ℤ
  current_class_name : String
  class_custom_colors : List (ℤ × Color)
  undo_stack : List (List BoundingBox)
  redo_stack : List (List BoundingBox)
deriving DecidableEq, Repr

/-- `AnnotationScene.get_box_color`: custom color if set, otherwise the
palette entry at `class_id % len(class_colors)` (Python `%` is
non-negative here, as is Lean's `Int.emod` for a positive modulus). -/
def get_box_color (s : Scene) (class_id : ℤ) : Color :=
  match s.class_custom_colors.lookup class_id with
  | some c => c
  | none => (class_colors.get? (class_id % (class_colors.length : ℤ)).toNat).getD ⟨0, 0, 0, 0⟩

/-- `AnnotationScene.save_state`: pushes a color-stripped deep copy of
`boxes` onto the undo stack and clears the redo stack. -/
def save_state (s : Scene) : Scene :=
  { s with undo_stack := snap s.boxes :: s.undo_stack, redo_stack := [] }

/-- `AnnotationScene.restore_state`: replaces `boxes` with fresh copies of
the given state (again built without the `color` field) and clears the
selection. -/
def restore_state (s : Scene) (state : List BoundingBox) : Scene :=
  { s with boxes := snap state, selected_box := none }

/-- `AnnotationScene.undo`: if the undo stack is non-empty, pushes a deep
copy of the live `boxes` onto the redo stack, pops the undo stack and
restores the popped state. Returns the scene unchanged when there is
nothing to undo (the Python method returns `False` then). -/
def undo (s : Scene) : Scene :=
  match s.undo_stack with
  | [] => s
  | prev :: rest =>
      restore_state { s with redo_stack := snap s.boxes :: s.redo_stack, undo_stack := rest } prev

/-- `AnnotationScene.redo`: the mirror of `undo`. -/
def redo (s : Scene) : Scene :=
  match s.redo_stack with
  | [] => s
  | nxt :: rest =>
      restore_state { s with undo_stack := snap s.boxes :: s.undo_stack, redo_stack := rest } nxt

/-- A user-initiated mutating operation in the shape shared by
`mouseReleaseEvent`'s successful commit and `delete_selected_boxes`:
first `save_state()` (undo push + redo clear), then an update of the box
sequence. -/
def applyMut (f : List BoundingBox → List BoundingBox) (s : Scene) : Scene :=
  { save_state s with boxes := f s.boxes }

/-- A sequence of mutating operations applied in order. -/
def applyMuts (fs : List (List BoundingBox → List BoundingBox)) (s : Scene) : Scene :=
  fs.foldl (fun st f => applyMut f st) s

/-- Iterated `undo`. -/
def undoN : Nat → Scene → Scene
  | 0, s => s
  | n + 1, s => undoN n (undo s)

/-- Iterated `redo`. -/
def redoN : Nat → Scene → Scene
  | 0, s => s
  | n + 1, s => redoN n (redo s)

/-- The fresh scene over a newly loaded image (`set_image` clears boxes,
selection and both history stacks). -/
def emptyScene : Scene :=
  { boxes := [], selected_box := none, current_class_id := 0, current_class_name := "",
    class_custom_colors := [], undo_stack := [], redo_stack := [] }

/-- `AnnotationScene.mouseReleaseEvent` on left-button release while a
provisional box `r` is being drawn: commits the box (preceded by
`save_state`) when `r.width() > 5 and r.height() > 5`, appending it under
the current class id/name and its display color; otherwise discards the
provisional rectangle, touching neither `boxes` nor the history. -/
def mouseReleaseCommit (s : Scene) (r : Rect) : Scene :=
  if 5 < r.w ∧ 5 < r.h then
    { save_state s with
      boxes := s.boxes ++
        [{ rect := r, class_id := s.current_class_id, class_name := s.current_class_name,
           color := some (get_box_color s s.current_class_id) }] }
  else s

/-- Insertion into a descending-sorted list (used to model Python
`sorted(indices, reverse=True)`). -/
def insertDesc (a : ℤ) : List ℤ → List ℤ
  | [] => [a]
  | b :: r => if b ≤ a then a :: b :: r else b :: insertDesc a r

/-- Python `sorted(indices, reverse=True)`. -/
def sortDesc (l : List ℤ) : List ℤ := l.foldr insertDesc []

/-- `AnnotationScene.delete_selected_boxes`: `save_state()` first
(unconditionally), then for each index in descending order, removes the
box when `0 <= i < len(boxes)` and silently skips the index otherwise;
finally clears the selection. -/
def delete_selected_boxes (s : Scene) (indices : List ℤ) : Scene :=
  let s1 := save_state s
  let boxes' := (sortDesc indices).foldl
    (fun bs i => if 0 ≤ i ∧ i < (bs.length : ℤ) then bs.eraseIdx i.toNat else bs) s1.boxes
  { s1 with boxes := boxes', selected_box := none }

/-- Which edges a resize handle drags: `'top' in position`,
`'bottom' in position`, `'left' in position`, `'right' in position` in
`ResizeHandle.mouseMoveEvent`. -/
structure HandlePos where
  hasTop : Bool
  hasBottom : Bool
  hasLeft : Bool
  hasRight : Bool
deriving DecidableEq, Repr

/-- A 2D drag delta (`event.scenePos() - self.start_pos`). -/
structure Delta where
  dx : ℚ
  dy : ℚ
deriving DecidableEq, Repr

/-- The edge adjustments of `ResizeHandle.mouseMoveEvent`: each flagged
edge of the pre-drag rectangle is set to its start position plus the
total drag delta (in source order: top, bottom, left, right). -/
def adjustRect (p : HandlePos) (start : Rect) (d : Delta) : Rect :=
  let r1 := if p.hasTop then Rect.setTop start (start.top + d.dy) else start
  let r2 := if p.hasBottom then Rect.setBottom r1 (start.bottom + d.dy) else r1
  let r3 := if p.hasLeft then Rect.setLeft r2 (start.left + d.dx) else r2
  if p.hasRight then Rect.setRight r3 (start.right + d.dx) else r3

/-- `ResizeHandle.mouseMoveEvent`: computes the adjusted rectangle from
the pre-drag `start_rect` and the total drag delta; commits
`new_rect.normalized()` to the parent box only when
`new_rect.width() > 10 and new_rect.height() > 10` (the signed,
pre-normalization width and height), otherwise leaves the parent
rectangle unchanged. Returns the parent box rectangle after the event. -/
def resizeMove (p : HandlePos) (start : Rect) (d : Delta) : Rect :=
  let new_rect := adjustRect p start d
  if 10 < new_rect.w ∧ 10 < new_rect.h then new_rect.normalized else start

/-- Modelled from the spec: the resize step as the specification words it
— adjust the flagged edges, normalize the result, and reject (leaving the
rectangle unchanged) exactly when the resulting width or height is ≤ 10
pixels. Used only to compare the claim's reading against `resizeMove`. -/
def resizeMoveSpec (p : HandlePos) (start : Rect) (d : Delta) : Rect :=
  let nr := (adjustRect p start d).normalized
  if 10 < nr.w ∧ 10 < nr.h then nr else start

/-- Value of a run of decimal digit characters (most significant first). -/
def digitsVal (cs : List Char) : ℕ :=
  cs.foldl (fun a c => 10 * a + (c.toNat - 48)) 0

/-- Exactly `k` decimal digits of `m` (mod `10^k`), most significant
first, zero-padded. -/
def padDigits : ℕ → ℕ → List Char
  | 0, _ => []
  | k + 1, m => padDigits k (m / 10) ++ [Nat.digitChar (m % 10)]

/-- Decimal digit characters of a natural number, no leading zeros
(Python `str` of a non-negative int). -/
def natChars (n : ℕ) : List Char :=
  if n = 0 then ['0'] else (padDigits (n + 1) n).dropWhile (· = '0')

/-- Decimal character form of an integer (Python `str` of an int). -/
def intChars (i : ℤ) : List Char :=
  if i < 0 then '-' :: natChars i.natAbs else natChars i.toNat

/-- Digit-run part of Python `int(token)`: all characters must be digits
and there must be at least one. -/
def natToken (cs : List Char) : Option ℕ :=
  if cs ≠ [] ∧ cs.all Char.isDigit then some (digitsVal cs) else none

/-- Python `int(token)` on a whitespace-free token: optional sign, then
decimal digits. Returns `none` where Python raises `ValueError`. -/
def pyInt (cs : List Char) : Option ℤ :=
  match cs with
  | [] => none
  | c :: r =>
      if c = '+' then (natToken r).map (fun n => (n : ℤ))
      else if c = '-' then (natToken r).map (fun n => -(n : ℤ))
      else (natToken (c :: r)).map (fun n => (n : ℤ))

/-- Exponent part of a floating literal: optional sign, then digits. -/
def expToken (cs : List Char) : Option ℤ :=
  match cs with
  | [] => none
  | c :: r =>
      if c = '+' then (natToken r).map (fun n => (n : ℤ))
      else if c = '-' then (natToken r).map (fun n => -(n : ℤ))
      else (natToken (c :: r)).map (fun n => (n : ℤ))

/-- Mantissa value `ip.fp` of a decimal literal. -/
def mantVal (ip fp : List Char) : ℚ :=
  (digitsVal ip : ℚ) + (digitsVal fp : ℚ) / 10 ^ fp.length

/-- Fractional-and-exponent tail of a decimal literal, after the `'.'`:
`ip` is the integer-part digit run. -/
def pyFloatFrac (ip r2 : List Char) : Option ℚ :=
  if ip = [] ∧ r2.takeWhile Char.isDigit = [] then none
  else
    match r2.dropWhile Char.isDigit with
    | [] => some (mantVal ip (r2.takeWhile Char.isDigit))
    | c :: r4 =>
        if c = 'e' ∨ c = 'E' then
          (expToken r4).map (fun e => mantVal ip (r2.takeWhile Char.isDigit) * (10 : ℚ) ^ e)
        else none

/-- Unsigned part of Python `float(token)` on a decimal literal:
`digits`, `digits.digits`, `digits.`, `.digits`, each optionally followed
by an exponent `e±digits`. -/
def pyFloatCore (cs : List Char) : Option ℚ :=
  match cs.dropWhile Char.isDigit with
  | [] =>
      if cs.takeWhile Char.isDigit = [] then none
      else some (digitsVal (cs.takeWhile Char.isDigit) : ℚ)
  | c :: r2 =>
      if c = '.' then pyFloatFrac (cs.takeWhile Char.isDigit) r2
      else if (c = 'e' ∨ c = 'E') ∧ cs.takeWhile Char.isDigit ≠ [] then
        (expToken r2).map (fun e => (digitsVal (cs.takeWhile Char.isDigit) : ℚ) * (10 : ℚ) ^ e)
      else none

/-- Python `float(token)` on a whitespace-free decimal token. Returns
`none` where Python raises `ValueError`. -/
def pyFloat (cs : List Char) : Option ℚ :=
  match cs with
  | [] => none
  | c :: r =>
      if c = '+' then pyFloatCore r
      else if c = '-' then (pyFloatCore r).map Neg.neg
      else pyFloatCore (c :: r)

/-- Worker for `splitChars`: `acc` holds the pending token's characters
in reverse. -/
def splitAux : List Char → List Char → List (List Char)
  | [], acc => if acc = [] then [] else [acc.reverse]
  | c :: cs, acc =>
      if c.isWhitespace then
        if acc = [] then splitAux cs [] else acc.reverse :: splitAux cs []
      else splitAux cs (c :: acc)

/-- Python `str.split()` (no separator argument): splits on runs of
whitespace, discarding leading and trailing whitespace, so it also
subsumes the preceding `str.strip()` of the source. -/
def splitChars (cs : List Char) : List (List Char) := splitAux cs []

/-- Clamp to the unit interval: `max(0.0, min(1.0, v))`. -/
def clamp01 (q : ℚ) : ℚ := max 0 (min 1 q)

/-- The integer numerator of the fixed 6-decimal rendering of `q`:
`q` scaled by 10⁶ and rounded to the nearest integer. -/
def round6 (q : ℚ) : ℤ := round (q * 1000000)

/-- Fixed 6-decimal formatting of a value in `[0, 1]` (Python
`f"{v:.6f}"`): one integer digit, a point, six fractional digits. -/
def f6Chars (q : ℚ) : List Char :=
  let n := (round6 q).toNat
  Nat.digitChar (n / 1000000) :: '.' :: padDigits 6 (n % 1000000)

/-- Normalized x-center of a box: `(rect.left() + rect.right()) / 2.0 /
image_width`. -/
def yoloCx (b : BoundingBox) (image_width : ℚ) : ℚ :=
  (b.rect.left + b.rect.right) / 2 / image_width

/-- Normalized y-center of a box: `(rect.top() + rect.bottom()) / 2.0 /
image_height`. -/
def yoloCy (b : BoundingBox) (image_height : ℚ) : ℚ :=
  (b.rect.top + b.rect.bottom) / 2 / image_height

/-- Normalized width: `rect.width() / image_width`. -/
def yoloW (b : BoundingBox) (image_width : ℚ) : ℚ := b.rect.w / image_width

/-- Normalized height: `rect.height() / image_height`. -/
def yoloH (b : BoundingBox) (image_height : ℚ) : ℚ := b.rect.h / image_height

/-- The character list of `BoundingBox.to_yolo_format`'s output. -/
def yoloLineChars (b : BoundingBox) (image_width image_height : ℚ) : List Char :=
  intChars b.class_id ++ ' ' :: f6Chars (clamp01 (yoloCx b image_width)) ++
    ' ' :: f6Chars (clamp01 (yoloCy b image_height)) ++
    ' ' :: f6Chars (clamp01 (yoloW b image_width)) ++
    ' ' :: f6Chars (clamp01 (yoloH b image_height))

/-- `BoundingBox.to_yolo_format`: computes the four normalized fields,
clamps each to `[0, 1]` independently, and renders
`f"{class_id} {cx:.6f} {cy:.6f} {w:.6f} {h:.6f}"`. -/
def to_yolo_format (b : BoundingBox) (image_width image_height : ℚ) : String :=
  String.mk (yoloLineChars b image_width image_height)

/-- `BoundingBox.from_yolo_format`: splits the line on whitespace,
requires exactly 5 tokens, parses `int, float, float, float, float`
(returning `None` on any `ValueError`), and reconstructs the pixel
rectangle `QRectF(x_center - width/2, y_center - height/2, width,
height)` without any clamping. -/
def from_yolo_format (line : String) (image_width image_height : ℚ)
    (class_name : String) : Option BoundingBox :=
  match splitChars line.data with
  | [p0, p1, p2, p3, p4] =>
      match pyInt p0, pyFloat p1, pyFloat p2, pyFloat p3, pyFloat p4 with
      | some class_id, some cx, some cy, some w, some h =>
          let width := w * image_width
          let height := h * image_height
          some { rect := { x := cx * image_width - width / 2,
                           y := cy * image_height - height / 2,
                           w := width, h := height },
                 class_id := class_id, class_name := class_name, color := none }
      | _, _, _, _, _ => none
  | _ => none

/-- Well-formedness of an annotation line: exactly 5 whitespace-separated
tokens, the first parsing as an integer and the remaining four as
floating point. -/
def wellFormedLine (line : String) : Prop :=
  ∃ p0 p1 p2 p3 p4, splitChars line.data = [p0, p1, p2, p3, p4] ∧
    (pyInt p0).isSome ∧ (pyFloat p1).isSome ∧ (pyFloat p2).isSome ∧
    (pyFloat p3).isSome ∧ (pyFloat p4).isSome

instance (line : String) : Decidable (wellFormedLine line) := by
  unfold wellFormedLine
  match splitChars line.data with
  | [q0, q1, q2, q3, q4] =>
      refine decidable_of_iff ((pyInt q0).isSome ∧ (pyFloat q1).isSome ∧
        (pyFloat q2).isSome ∧ (pyFloat q3).isSome ∧ (pyFloat q4).isSome) ?_
      constructor
      · rintro ⟨h0, h1, h2, h3, h4⟩; exact ⟨q0, q1, q2, q3, q4, rfl, h0, h1, h2, h3, h4⟩
      · rintro ⟨p0, p1, p2, p3, p4, heq, h⟩
        injection heq with e0 heq; injection heq with e1 heq; injection heq with e2 heq
        injection heq with e3 heq; injection heq with e4 _
        subst e0; subst e1; subst e2; subst e3; subst e4; exact h
  | [] => exact isFalse (by rintro ⟨_, _, _, _, _, h, _⟩; simp at h)
  | [_] => exact isFalse (by rintro ⟨_, _, _, _, _, h, _⟩; simp at h)
  | [_, _] => exact isFalse (by rintro ⟨_, _, _, _, _, h, _⟩; simp at h)
  | [_, _, _] => exact isFalse (by rintro ⟨_, _, _, _, _, h, _⟩; simp at h)
  | [_, _, _, _] => exact isFalse (by rintro ⟨_, _, _, _, _, h, _⟩; simp at h)
  | _ :: _ :: _ :: _ :: _ :: _ :: _ =>
      exact isFalse (by rintro ⟨_, _, _, _, _, h, _⟩; simp at h)

/-- Python `str.strip()`: removes leading and trailing whitespace. -/
def stripChars (cs : List Char) : List Char :=
  ((cs.dropWhile Char.isWhitespace).reverse.dropWhile Char.isWhitespace).reverse

/-- The per-line loop body of `MainWindow.load_annotations`, processing
the file's lines in order. The whole loop runs inside one
`try/except`: blank lines are skipped, lines whose token count is not 5
are skipped (`continue`), and a parse failure inside
`BoundingBox.from_yolo_format` is skipped (it returns `None`); but the
unguarded `int(parts[0])` — evaluated to look up the class name — raises
`ValueError` on a non-integer first token, which propagates to the outer
`except` and aborts the remaining lines. The Boolean result records
whether the load was aborted; the boxes accumulated so far remain loaded
either way. -/
def loadLines (image_width image_height : ℚ) (class_id_map : List (ℤ × String)) :
    List String → List BoundingBox → List BoundingBox × Bool
  | [], acc => (acc, false)
  | line :: rest, acc =>
      let l := stripChars line.data
      if l = [] then loadLines image_width image_height class_id_map rest acc
      else
        let parts := splitChars l
        if parts.length ≠ 5 then loadLines image_width image_height class_id_map rest acc
        else
          match pyInt parts.headI with
          | none => (acc, true)
          | some class_id =>
              let class_name :=
                match class_id_map.lookup class_id with
                | some n => n
                | none => "class_" ++ String.mk (intChars class_id)
              match from_yolo_format (String.mk l) image_width image_height class_name with
              | some bbox => loadLines image_width image_height class_id_map rest (acc ++ [bbox])
              | none => loadLines image_width image_height class_id_map rest acc

/-- `MainWindow.load_annotations` restricted to its parsing loop: takes
the annotation file's lines and returns the loaded boxes plus an
aborted-by-exception flag. -/
def load_annotations (lines : List String) (image_width image_height : ℚ)
    (class_id_map : List (ℤ × String)) : List BoundingBox × Bool :=
  loadLines image_width image_height class_id_map lines []

/-- Insertion into an ascending-by-id class list. -/
def insertAscClass (a : ℤ × String) : List (ℤ × String) → List (ℤ × String)
  | [] => [a]
  | b :: r => if a.1 ≤ b.1 then a :: b :: r else b :: insertAscClass a r

/-- The class map sorted by id, modelling `sorted(class_id_map.keys())`
with each id paired with its name. -/
def sortedClasses (m : List (ℤ × String)) : List (ℤ × String) :=
  m.foldr insertAscClass []

/-- `MainWindow.classes`: the class names ordered by ascending id
(`self.classes = [self.class_id_map[cid] for cid in sorted_ids]`). -/
def classesOf (m : List (ℤ × String)) : List String :=
  (sortedClasses m).map Prod.snd

/-- The lines written by `MainWindow.save_classes`: one bare class name
per line (`f.write(class_name + '\n')`). -/
def save_classes_lines (m : List (ℤ × String)) : List String :=
  classesOf m

/-- The lines written by `MainWindow.save_classes_file`:
`f.write(f"[{i}] {class_name}\n")` where `i` is the `enumerate` position
over `self.classes`, not the class's id in the map. -/
def save_classes_file_lines (m : List (ℤ × String)) : List String :=
  (classesOf m).enum.map (fun p => "[" ++ String.mk (natChars p.1) ++ "] " ++ p.2)

/-! Helper lemmas about decimal digit printing and parsing. -/

theorem digitChar_isDigit (d : ℕ) (h : d < 10) : (Nat.digitChar d).isDigit = true := by
  interval_cases d <;> decide

theorem digitChar_not_ws (d : ℕ) (h : d < 10) : (Nat.digitChar d).isWhitespace = false := by
  interval_cases d <;> decide

theorem digitChar_ne_plus (d : ℕ) (h : d < 10) : Nat.digitChar d ≠ '+' := by
  interval_cases d <;> decide

theorem digitChar_ne_minus (d : ℕ) (h : d < 10) : Nat.digitChar d ≠ '-' := by
  interval_cases d <;> decide

theorem digitChar_val (d : ℕ) (h : d < 10) : (Nat.digitChar d).toNat - 48 = d := by
  interval_cases d <;> decide

theorem padDigits_length (k m : ℕ) : (padDigits k m).length = k := by
  induction k generalizing m with
  | zero => rfl
  | succ k ih => simp [padDigits, ih]

theorem padDigits_digits (k m : ℕ) : ∀ c ∈ padDigits k m, c.isDigit = true := by
  induction k generalizing m with
  | zero => intro c hc; simp [padDigits] at hc
  | succ k ih =>
      intro c hc
      simp only [padDigits, List.mem_append, List.mem_singleton] at hc
      rcases hc with hc | rfl
      · exact ih (m / 10) c hc
      · exact digitChar_isDigit _ (Nat.mod_lt _ (by norm_num))

theorem digitsVal_append_digit (l : List Char) (c : Char) :
    digitsVal (l ++ [c]) = 10 * digitsVal l + (c.toNat - 48) := by
  simp [digitsVal, List.foldl_append]

theorem digitsVal_padDigits (k m : ℕ) (h : m < 10 ^ k) :
    digitsVal (padDigits k m) = m := by
  induction k generalizing m with
  | zero =>
      have : m = 0 := by simpa using h
      subst this
      rfl
  | succ k ih =>
      have hdiv : m / 10 < 10 ^ k := by
        rw [Nat.div_lt_iff_lt_mul (by norm_num)]
        calc m < 10 ^ (k + 1) := h
        _ = 10 ^ k * 10 := by ring
      rw [padDigits, digitsVal_append_digit, ih (m / 10) hdiv,
        digitChar_val _ (Nat.mod_lt _ (by norm_num))]
      omega

theorem digitsVal_dropZeros (l : List Char) :
    digitsVal (l.dropWhile (· = '0')) = digitsVal l := by
  induction l with
  | nil => rfl
  | cons c cs ih =>
      by_cases h : c = '0'
      · subst h
        rw [List.dropWhile_cons_of_pos (by decide)]
        rw [ih]
        rfl
      · rw [List.dropWhile_cons_of_neg (by simpa using h)]

theorem mem_dropWhile_imp {p : Char → Bool} {l : List Char} {c : Char}
    (h : c ∈ l.dropWhile p) : c ∈ l := by
  induction l with
  | nil => simp at h
  | cons a as ih =>
      by_cases hp : p a
      · rw [List.dropWhile_cons_of_pos hp] at h
        exact List.mem_cons_of_mem a (ih h)
      · rwa [List.dropWhile_cons_of_neg hp] at h

theorem natChars_digits (n : ℕ) : ∀ c ∈ natChars n, c.isDigit = true := by
  intro c hc
  unfold natChars at hc
  by_cases h : n = 0
  · simp [h] at hc
    subst hc
    decide
  · rw [if_neg h] at hc
    exact padDigits_digits _ n c (mem_dropWhile_imp hc)

theorem digitsVal_natChars (n : ℕ) : digitsVal (natChars n) = n := by
  unfold natChars
  by_cases h : n = 0
  · subst h
    decide
  · rw [if_neg h, digitsVal_dropZeros]
    exact digitsVal_padDigits _ n
      (lt_of_lt_of_le (Nat.lt_pow_self (by norm_num) n)
        (Nat.pow_le_pow_right (by norm_num) (Nat.le_succ n)))

theorem natChars_ne_nil (n : ℕ) : natChars n ≠ [] := by
  intro hnil
  have := digitsVal_natChars n
  rw [hnil] at this
  by_cases h : n = 0
  · subst h
    unfold natChars at hnil
    simp at hnil
  · exact h (by simpa [digitsVal] using this.symm)

theorem takeWhile_all {p : Char → Bool} : ∀ {l : List Char}, (∀ c ∈ l, p c = true) →
    l.takeWhile p = l := by
  intro l
  induction l with
  | nil => intro _; rfl
  | cons c cs ih =>
      intro h
      rw [List.takeWhile_cons_of_pos (h c (by simp))]
      rw [ih (fun x hx => h x (by simp [hx]))]

theorem dropWhile_all {p : Char → Bool} : ∀ {l : List Char}, (∀ c ∈ l, p c = true) →
    l.dropWhile p = [] := by
  intro l
  induction l with
  | nil => intro _; rfl
  | cons c cs ih =>
      intro h
      rw [List.dropWhile_cons_of_pos (h c (by simp))]
      exact ih (fun x hx => h x (by simp [hx]))

theorem takeWhile_append_stop {p : Char → Bool} {l : List Char} (d : Char) (r : List Char)
    (hl : ∀ c ∈ l, p c = true) (hd : p d = false) :
    (l ++ d :: r).takeWhile p = l := by
  induction l with
  | nil =>
      rw [List.nil_append]
      exact List.takeWhile_cons_of_neg (by simp [hd])
  | cons c cs ih =>
      rw [List.cons_append, List.takeWhile_cons_of_pos (hl c (by simp))]
      rw [ih (fun x hx => hl x (by simp [hx]))]

theorem dropWhile_append_stop {p : Char → Bool} {l : List Char} (d : Char) (r : List Char)
    (hl : ∀ c ∈ l, p c = true) (hd : p d = false) :
    (l ++ d :: r).dropWhile p = d :: r := by
  induction l with
  | nil =>
      rw [List.nil_append]
      exact List.dropWhile_cons_of_neg (by simp [hd])
  | cons c cs ih =>
      rw [List.cons_append, List.dropWhile_cons_of_pos (hl c (by simp))]
      exact ih (fun x hx => hl x (by simp [hx]))

theorem round6_nonneg (q : ℚ) (h0 : 0 ≤ q) : 0 ≤ round6 q := by
  rw [round6, round_eq]
  have : (0 : ℚ) ≤ q * 1000000 + 1 / 2 := by nlinarith
  exact Int.le_floor.mpr (by push_cast; linarith)

theorem round6_le_million (q : ℚ) (h1 : q ≤ 1) : round6 q ≤ 1000000 := by
  rw [round6, round_eq]
  have h : q * 1000000 + 1 / 2 ≤ 1000000 + 1 / 2 := by nlinarith
  calc ⌊q * 1000000 + 1 / 2⌋ ≤ ⌊(1000000 : ℚ) + 1 / 2⌋ := Int.floor_le_floor h
  _ = 1000000 := by norm_num [Int.floor_eq_iff]

theorem round6_approx (q : ℚ) : |(round6 q : ℚ) / 1000000 - q| ≤ 1 / 1000000 := by
  have h := abs_sub_round (q * 1000000)
  rw [round6]
  have heq : ((round (q * 1000000) : ℚ)) / 1000000 - q =
      -((q * 1000000 - (round (q * 1000000) : ℚ)) / 1000000) := by ring
  rw [heq, abs_neg, abs_div]
  have : |(1000000 : ℚ)| = 1000000 := by norm_num
  rw [this]
  rw [div_le_div_iff (by norm_num) (by norm_num)]
  nlinarith [h]

/-- Helper: six-decimal rendering of a number `n ≤ 10^6` as characters. -/
theorem f6Chars_shape (q : ℚ) (h0 : 0 ≤ q) (h1 : q ≤ 1) :
    f6Chars q = Nat.digitChar ((round6 q).toNat / 1000000) :: '.' ::
      padDigits 6 ((round6 q).toNat % 1000000) := rfl

theorem intDigit_le_one (q : ℚ) (h0 : 0 ≤ q) (h1 : q ≤ 1) :
    (round6 q).toNat / 1000000 < 10 := by
  have hle := round6_le_million q h1
  have hnn := round6_nonneg q h0
  omega

theorem pyFloatCore_f6Chars (q : ℚ) (h0 : 0 ≤ q) (h1 : q ≤ 1) :
    pyFloatCore (f6Chars q) = some ((round6 q : ℚ) / 1000000) := by
  have hd : (Nat.digitChar ((round6 q).toNat / 1000000)).isDigit = true :=
    digitChar_isDigit _ (intDigit_le_one q h0 h1)
  have hpadd : ∀ c ∈ padDigits 6 ((round6 q).toNat % 1000000), c.isDigit = true :=
    padDigits_digits 6 _
  have htake : (f6Chars q).takeWhile Char.isDigit =
      [Nat.digitChar ((round6 q).toNat / 1000000)] := by
    rw [f6Chars_shape q h0 h1, List.takeWhile_cons_of_pos hd,
      List.takeWhile_cons_of_neg (by decide)]
  have hdrop : (f6Chars q).dropWhile Char.isDigit =
      '.' :: padDigits 6 ((round6 q).toNat % 1000000) := by
    rw [f6Chars_shape q h0 h1, List.dropWhile_cons_of_pos hd,
      List.dropWhile_cons_of_neg (by decide)]
  unfold pyFloatCore
  rw [hdrop, htake]
  dsimp only
  rw [if_pos rfl]
  unfold pyFloatFrac
  rw [takeWhile_all hpadd, dropWhile_all hpadd]
  rw [if_neg (by simp)]
  dsimp only
  simp only [Option.some.injEq]
  unfold mantVal
  have ha : digitsVal [Nat.digitChar ((round6 q).toNat / 1000000)] =
      (round6 q).toNat / 1000000 := by
    have h : digitsVal [Nat.digitChar ((round6 q).toNat / 1000000)] =
        (Nat.digitChar ((round6 q).toNat / 1000000)).toNat - 48 := by
      simp [digitsVal]
    rw [h, digitChar_val _ (intDigit_le_one q h0 h1)]
  have hm : digitsVal (padDigits 6 ((round6 q).toNat % 1000000)) =
      (round6 q).toNat % 1000000 :=
    digitsVal_padDigits 6 _ (Nat.mod_lt _ (by norm_num))
  rw [ha, hm, padDigits_length]
  have hn : (((round6 q).toNat : ℤ) : ℚ) = ((round6 q : ℤ) : ℚ) := by
    rw [Int.toNat_of_nonneg (round6_nonneg q h0)]
  have hsplit : 1000000 * ((round6 q).toNat / 1000000) + (round6 q).toNat % 1000000 =
      (round6 q).toNat := Nat.div_add_mod _ 1000000
  have hsplitQ : (1000000 : ℚ) * (((round6 q).toNat / 1000000 : ℕ) : ℚ) +
      (((round6 q).toNat % 1000000 : ℕ) : ℚ) = (((round6 q).toNat : ℕ) : ℚ) := by
    exact_mod_cast congrArg (fun n : ℕ => (n : ℚ)) hsplit
  have hR : ((round6 q : ℤ) : ℚ) = (1000000 : ℚ) * (((round6 q).toNat / 1000000 : ℕ) : ℚ) +
      (((round6 q).toNat % 1000000 : ℕ) : ℚ) := by
    rw [← hn, Int.cast_natCast]
    exact hsplitQ.symm
  rw [hR, show ((10 : ℚ) ^ 6) = 1000000 by norm_num]
  field_simp
  ring

theorem pyFloat_f6Chars (q : ℚ) (h0 : 0 ≤ q) (h1 : q ≤ 1) :
    pyFloat (f6Chars q) = some ((round6 q : ℚ) / 1000000) := by
  have ha : (round6 q).toNat / 1000000 < 10 := intDigit_le_one q h0 h1
  rw [f6Chars_shape q h0 h1]
  unfold pyFloat
  dsimp only
  rw [if_neg (digitChar_ne_plus _ ha), if_neg (digitChar_ne_minus _ ha)]
  rw [← f6Chars_shape q h0 h1]
  exact pyFloatCore_f6Chars q h0 h1

theorem natToken_natChars (n : ℕ) : natToken (natChars n) = some n := by
  unfold natToken
  rw [if_pos ⟨natChars_ne_nil n, List.all_eq_true.mpr (natChars_digits n)⟩,
    digitsVal_natChars]

theorem isDigit_ne_plus {c : Char} (h : c.isDigit = true) : c ≠ '+' := by
  intro heq
  rw [heq] at h
  exact absurd h (by decide)

theorem isDigit_ne_minus {c : Char} (h : c.isDigit = true) : c ≠ '-' := by
  intro heq
  rw [heq] at h
  exact absurd h (by decide)

theorem pyInt_intChars (i : ℤ) : pyInt (intChars i) = some i := by
  unfold intChars
  by_cases hi : i < 0
  · rw [if_pos hi]
    unfold pyInt
    dsimp only
    rw [if_neg (by decide), if_pos rfl, natToken_natChars]
    show some (-(i.natAbs : ℤ)) = some i
    exact congrArg some (by omega)
  · rw [if_neg hi]
    obtain ⟨c, r, hcr⟩ := List.exists_cons_of_ne_nil (natChars_ne_nil i.toNat)
    have hdig : c.isDigit = true := natChars_digits i.toNat c (by rw [hcr]; simp)
    rw [hcr]
    unfold pyInt
    dsimp only
    rw [if_neg (isDigit_ne_plus hdig), if_neg (isDigit_ne_minus hdig), ← hcr,
      natToken_natChars]
    show some ((i.toNat : ℤ)) = some i
    exact congrArg some (by omega)

theorem padDigits_not_ws (k m : ℕ) : ∀ c ∈ padDigits k m, c.isWhitespace = false := by
  induction k generalizing m with
  | zero => intro c hc; simp [padDigits] at hc
  | succ k ih =>
      intro c hc
      simp only [padDigits, List.mem_append, List.mem_singleton] at hc
      rcases hc with hc | rfl
      · exact ih (m / 10) c hc
      · exact digitChar_not_ws _ (Nat.mod_lt _ (by norm_num))

theorem natChars_not_ws (n : ℕ) : ∀ c ∈ natChars n, c.isWhitespace = false := by
  intro c hc
  unfold natChars at hc
  by_cases h : n = 0
  · simp [h] at hc
    subst hc
    decide
  · rw [if_neg h] at hc
    exact padDigits_not_ws _ n c (mem_dropWhile_imp hc)

theorem intChars_not_ws (i : ℤ) : ∀ c ∈ intChars i, c.isWhitespace = false := by
  intro c hc
  unfold intChars at hc
  by_cases hi : i < 0
  · rw [if_pos hi] at hc
    rcases List.mem_cons.mp hc with rfl | hc
    · decide
    · exact natChars_not_ws _ c hc
  · rw [if_neg hi] at hc
    exact natChars_not_ws _ c hc

theorem intChars_ne_nil (i : ℤ) : intChars i ≠ [] := by
  unfold intChars
  by_cases hi : i < 0
  · rw [if_pos hi]; simp
  · rw [if_neg hi]; exact natChars_ne_nil _

theorem f6Chars_not_ws (q : ℚ) (h0 : 0 ≤ q) (h1 : q ≤ 1) :
    ∀ c ∈ f6Chars q, c.isWhitespace = false := by
  intro c hc
  rw [f6Chars_shape q h0 h1] at hc
  rcases List.mem_cons.mp hc with rfl | hc
  · exact digitChar_not_ws _ (intDigit_le_one q h0 h1)
  · rcases List.mem_cons.mp hc with rfl | hc
    · decide
    · exact padDigits_not_ws 6 _ c hc

theorem f6Chars_ne_nil (q : ℚ) (h0 : 0 ≤ q) (h1 : q ≤ 1) : f6Chars q ≠ [] := by
  rw [f6Chars_shape q h0 h1]
  simp

theorem clamp01_nonneg (q : ℚ) : 0 ≤ clamp01 q := le_max_left 0 _

theorem clamp01_le_one (q : ℚ) : clamp01 q ≤ 1 :=
  max_le (by norm_num) (min_le_left 1 q)

theorem clamp01_eq_self (q : ℚ) (h0 : 0 ≤ q) (h1 : q ≤ 1) : clamp01 q = q := by
  unfold clamp01
  rw [min_eq_right h1, max_eq_right h0]

theorem splitAux_nil (acc : List Char) :
    splitAux [] acc = if acc = [] then [] else [acc.reverse] := rfl

theorem splitAux_cons (c : Char) (cs acc : List Char) :
    splitAux (c :: cs) acc =
      if c.isWhitespace then
        if acc = [] then splitAux cs [] else acc.reverse :: splitAux cs []
      else splitAux cs (c :: acc) := rfl

theorem splitAux_token (t : List Char) : ∀ (acc rest : List Char),
    (∀ c ∈ t, c.isWhitespace = false) → (acc ≠ [] ∨ t ≠ []) →
    splitAux (t ++ ' ' :: rest) acc = (acc.reverse ++ t) :: splitAux rest [] := by
  induction t with
  | nil =>
      intro acc rest _ hne
      rcases hne with h | h
      · rw [List.nil_append, splitAux_cons, if_pos (by decide), if_neg h]
        simp
      · exact absurd rfl h
  | cons c t' ih =>
      intro acc rest hnw hne
      have hc : c.isWhitespace = false := hnw c (by simp)
      rw [List.cons_append, splitAux_cons, if_neg (by simp [hc])]
      rw [ih (c :: acc) rest (fun x hx => hnw x (by simp [hx])) (Or.inl (by simp))]
      simp

theorem splitAux_final (t : List Char) : ∀ (acc : List Char),
    (∀ c ∈ t, c.isWhitespace = false) → (acc ≠ [] ∨ t ≠ []) →
    splitAux t acc = [acc.reverse ++ t] := by
  induction t with
  | nil =>
      intro acc _ hne
      rcases hne with h | h
      · rw [splitAux_nil, if_neg h]
        simp
      · exact absurd rfl h
  | cons c t' ih =>
      intro acc hnw _
      have hc : c.isWhitespace = false := hnw c (by simp)
      rw [splitAux_cons, if_neg (by simp [hc])]
      rw [ih (c :: acc) (fun x hx => hnw x (by simp [hx])) (Or.inl (by simp))]
      simp

theorem splitChars_token (t rest : List Char) (hnw : ∀ c ∈ t, c.isWhitespace = false)
    (hne : t ≠ []) : splitChars (t ++ ' ' :: rest) = t :: splitChars rest := by
  unfold splitChars
  rw [splitAux_token t [] rest hnw (Or.inr hne)]
  simp

theorem splitChars_final (t : List Char) (hnw : ∀ c ∈ t, c.isWhitespace = false)
    (hne : t ≠ []) : splitChars t = [t] := by
  unfold splitChars
  rw [splitAux_final t [] hnw (Or.inr hne)]
  simp

/-- The YOLO line of `to_yolo_format` splits back into its five tokens. -/
theorem splitChars_yoloLine (b : BoundingBox) (W H : ℚ) :
    splitChars (yoloLineChars b W H) =
      [intChars b.class_id, f6Chars (clamp01 (yoloCx b W)), f6Chars (clamp01 (yoloCy b H)),
       f6Chars (clamp01 (yoloW b W)), f6Chars (clamp01 (yoloH b H))] := by
  unfold yoloLineChars
  simp only [List.append_assoc, List.cons_append]
  rw [splitChars_token _ _ (intChars_not_ws _) (intChars_ne_nil _)]
  rw [splitChars_token _ _ (f6Chars_not_ws _ (clamp01_nonneg _) (clamp01_le_one _))
    (f6Chars_ne_nil _ (clamp01_nonneg _) (clamp01_le_one _))]
  rw [splitChars_token _ _ (f6Chars_not_ws _ (clamp01_nonneg _) (clamp01_le_one _))
    (f6Chars_ne_nil _ (clamp01_nonneg _) (clamp01_le_one _))]
  rw [splitChars_token _ _ (f6Chars_not_ws _ (clamp01_nonneg _) (clamp01_le_one _))
    (f6Chars_ne_nil _ (clamp01_nonneg _) (clamp01_le_one _))]
  rw [splitChars_final _ (f6Chars_not_ws _ (clamp01_nonneg _) (clamp01_le_one _))
    (f6Chars_ne_nil _ (clamp01_nonneg _) (clamp01_le_one _))]

/-- The box produced by decoding `to_yolo_format b W H`: the rectangle
rebuilt from the rounded, clamped normalized fields. -/
def decodedBox (b : BoundingBox) (W H : ℚ) (nm : String) : BoundingBox :=
  { rect := { x := (round6 (clamp01 (yoloCx b W)) : ℚ) / 1000000 * W -
                (round6 (clamp01 (yoloW b W)) : ℚ) / 1000000 * W / 2,
              y := (round6 (clamp01 (yoloCy b H)) : ℚ) / 1000000 * H -
                (round6 (clamp01 (yoloH b H)) : ℚ) / 1000000 * H / 2,
              w := (round6 (clamp01 (yoloW b W)) : ℚ) / 1000000 * W,
              h := (round6 (clamp01 (yoloH b H)) : ℚ) / 1000000 * H },
    class_id := b.class_id, class_name := nm, color := none }

/-- Decoding an encoded line always succeeds and yields `decodedBox`. -/
theorem from_to_yolo (b : BoundingBox) (W H : ℚ) (nm : String) :
    from_yolo_format (to_yolo_format b W H) W H nm = some (decodedBox b W H nm) := by
  unfold decodedBox
  unfold from_yolo_format to_yolo_format
  rw [show (String.mk (yoloLineChars b W H)).data = yoloLineChars b W H from rfl]
  rw [splitChars_yoloLine]
  dsimp only
  rw [pyInt_intChars, pyFloat_f6Chars _ (clamp01_nonneg _) (clamp01_le_one _),
    pyFloat_f6Chars _ (clamp01_nonneg _) (clamp01_le_one _),
    pyFloat_f6Chars _ (clamp01_nonneg _) (clamp01_le_one _),
    pyFloat_f6Chars _ (clamp01_nonneg _) (clamp01_le_one _)]

/-- Decoding succeeds on any well-formed token list and yields the
unclamped rectangle rebuilt from the parsed fields. -/
theorem from_yolo_success (line : String) (W H : ℚ) (nm : String)
    (p0 p1 p2 p3 p4 : List Char) (cid : ℤ) (cx cy w h : ℚ)
    (hsp : splitChars line.data = [p0, p1, p2, p3, p4])
    (h0 : pyInt p0 = some cid) (h1 : pyFloat p1 = some cx)
    (h2 : pyFloat p2 = some cy) (h3 : pyFloat p3 = some w)
    (h4 : pyFloat p4 = some h) :
    from_yolo_format line W H nm = some
      { rect := { x := cx * W - w * W / 2, y := cy * H - h * H / 2,
                  w := w * W, h := h * H },
        class_id := cid, class_name := nm, color := none } := by
  unfold from_yolo_format
  rw [hsp]
  dsimp only
  rw [h0, h1, h2, h3, h4]

/-- Decoding a line that produces a box implies the line was
well-formed. -/
theorem wf_of_from_yolo_some (line : String) (W H : ℚ) (nm : String) (b : BoundingBox)
    (hb : from_yolo_format line W H nm = some b) : wellFormedLine line := by
  unfold from_yolo_format at hb
  rcases hsp : splitChars line.data with _ | ⟨p0, _ | ⟨p1, _ | ⟨p2, _ | ⟨p3, _ | ⟨p4, _ | ⟨p5, ps⟩⟩⟩⟩⟩⟩ <;>
    rw [hsp] at hb <;> dsimp only at hb <;> try exact absurd hb (by simp)
  rcases h0 : pyInt p0 with _ | cid <;> rw [h0] at hb
  · exact absurd hb (by simp)
  rcases h1 : pyFloat p1 with _ | cx <;> rw [h1] at hb
  · exact absurd hb (by simp)
  rcases h2 : pyFloat p2 with _ | cy <;> rw [h2] at hb
  · exact absurd hb (by simp)
  rcases h3 : pyFloat p3 with _ | w <;> rw [h3] at hb
  · exact absurd hb (by simp)
  rcases h4 : pyFloat p4 with _ | h <;> rw [h4] at hb
  · exact absurd hb (by simp)
  exact ⟨p0, p1, p2, p3, p4, hsp, by simp [h0], by simp [h1], by simp [h2],
    by simp [h3], by simp [h4]⟩

/-- A contract instance used in several concrete computations. -/
def fishBox : BoundingBox :=
  { rect := ⟨100, 100, 200, 300⟩, class_id := 2, class_name := "fish", color := none }

/-- C3: decoding fails (returns `None`) exactly when the line does not
split into 5 whitespace-separated tokens of the form int, float, float,
float, float; on success the pixel rectangle is rebuilt via
`width = w·W`, `height = h·H`, `x = cx·W − width/2`, `y = cy·H −
height/2` with no clamping — the out-of-range line `0 1.5 0.5 0.2 0.2`
on a 100×100 image yields `x = 140`, off-canvas. -/
theorem from_yolo_format_contract (line : String) (W H : ℚ) (nm : String) :
    (from_yolo_format line W H nm = none ↔ ¬ wellFormedLine line) ∧
    (∀ (p0 p1 p2 p3 p4 : List Char) (cid : ℤ) (cx cy w h : ℚ),
      splitChars line.data = [p0, p1, p2, p3, p4] →
      pyInt p0 = some cid → pyFloat p1 = some cx → pyFloat p2 = some cy →
      pyFloat p3 = some w → pyFloat p4 = some h →
      from_yolo_format line W H nm = some
        { rect := { x := cx * W - w * W / 2, y := cy * H - h * H / 2,
                    w := w * W, h := h * H },
          class_id := cid, class_name := nm, color := none }) ∧
    from_yolo_format "0 1.5 0.5 0.2 0.2" 100 100 nm = some
      { rect := { x := 140, y := 40, w := 20, h := 20 }, class_id := 0,
        class_name := nm, color := none } := by
  refine ⟨⟨?_, ?_⟩, ?_, ?_⟩
  · intro hnone hwf
    obtain ⟨p0, p1, p2, p3, p4, hsp, h0, h1, h2, h3, h4⟩ := hwf
    obtain ⟨cid, hc0⟩ := Option.isSome_iff_exists.mp h0
    obtain ⟨cx, hc1⟩ := Option.isSome_iff_exists.mp h1
    obtain ⟨cy, hc2⟩ := Option.isSome_iff_exists.mp h2
    obtain ⟨w, hc3⟩ := Option.isSome_iff_exists.mp h3
    obtain ⟨h, hc4⟩ := Option.isSome_iff_exists.mp h4
    rw [from_yolo_success line W H nm p0 p1 p2 p3 p4 cid cx cy w h hsp hc0 hc1 hc2 hc3
      hc4] at hnone
    exact Option.noConfusion hnone
  · intro hnwf
    cases hfy : from_yolo_format line W H nm with
    | none => rfl
    | some b => exact absurd (wf_of_from_yolo_some line W H nm b hfy) hnwf
  · intro p0 p1 p2 p3 p4 cid cx cy w h hsp h0 h1 h2 h3 h4
    exact from_yolo_success line W H nm p0 p1 p2 p3 p4 cid cx cy w h hsp h0 h1 h2 h3 h4
  · have hsp : splitChars ("0 1.5 0.5 0.2 0.2" : String).data =
        [['0'], ['1', '.', '5'], ['0', '.', '5'], ['0', '.', '2'], ['0', '.', '2']] := by
      decide
    have h0 : pyInt ['0'] = some 0 := by decide
    have h1 : pyFloat ['1', '.', '5'] = some (3 / 2) := by
      rw [show pyFloat ['1', '.', '5'] = some (mantVal ['1'] ['5']) from rfl]
      unfold mantVal
      rw [show digitsVal ['1'] = 1 from by decide, show digitsVal ['5'] = 5 from by decide]
      norm_num
    have h2 : pyFloat ['0', '.', '5'] = some (1 / 2) := by
      rw [show pyFloat ['0', '.', '5'] = some (mantVal ['0'] ['5']) from rfl]
      unfold mantVal
      rw [show digitsVal ['0'] = 0 from by decide, show digitsVal ['5'] = 5 from by decide]
      norm_num
    have h3 : pyFloat ['0', '.', '2'] = some (1 / 5) := by
      rw [show pyFloat ['0', '.', '2'] = some (mantVal ['0'] ['2']) from rfl]
      unfold mantVal
      rw [show digitsVal ['0'] = 0 from by decide, show digitsVal ['2'] = 2 from by decide]
      norm_num
    rw [from_yolo_success _ 100 100 nm _ _ _ _ _ 0 (3 / 2) (1 / 2) (1 / 5) (1 / 5) hsp
      h0 h1 h2 h3 h3]
    norm_num [BoundingBox.mk.injEq, Rect.mk.injEq]

/-- C2: encoding renders `"id cx cy w h"` with `cx = (left + right)/2/W`,
`cy = (top + bottom)/2/H`, `w = width/W`, `h = height/H`, each clamped to
`[0, 1]` independently and rendered at fixed 6-decimal precision (each
numeric token parses back to the clamped value rounded to the nearest
10⁻⁶); the scenario box (100,100)–(300,400) under class 2 on a 1000×500
image encodes to `2 0.200000 0.500000 0.200000 0.600000`. -/
theorem to_yolo_format_contract (b : BoundingBox) (W H : ℚ) :
    (to_yolo_format fishBox 1000 500 = "2 0.200000 0.500000 0.200000 0.600000") ∧
    (to_yolo_format b W H = String.mk
      (intChars b.class_id ++
        ' ' :: f6Chars (clamp01 ((b.rect.x + (b.rect.x + b.rect.w)) / 2 / W)) ++
        ' ' :: f6Chars (clamp01 ((b.rect.y + (b.rect.y + b.rect.h)) / 2 / H)) ++
        ' ' :: f6Chars (clamp01 (b.rect.w / W)) ++
        ' ' :: f6Chars (clamp01 (b.rect.h / H)))) ∧
    (splitChars (to_yolo_format b W H).data =
      [intChars b.class_id, f6Chars (clamp01 (yoloCx b W)), f6Chars (clamp01 (yoloCy b H)),
       f6Chars (clamp01 (yoloW b W)), f6Chars (clamp01 (yoloH b H))]) ∧
    (0 ≤ clamp01 (yoloCx b W) ∧ clamp01 (yoloCx b W) ≤ 1) ∧
    (0 ≤ clamp01 (yoloCy b H) ∧ clamp01 (yoloCy b H) ≤ 1) ∧
    (0 ≤ clamp01 (yoloW b W) ∧ clamp01 (yoloW b W) ≤ 1) ∧
    (0 ≤ clamp01 (yoloH b H) ∧ clamp01 (yoloH b H) ≤ 1) ∧
    pyInt (intChars b.class_id) = some b.class_id ∧
    pyFloat (f6Chars (clamp01 (yoloCx b W))) =
      some ((round6 (clamp01 (yoloCx b W)) : ℚ) / 1000000) ∧
    pyFloat (f6Chars (clamp01 (yoloCy b H))) =
      some ((round6 (clamp01 (yoloCy b H)) : ℚ) / 1000000) ∧
    pyFloat (f6Chars (clamp01 (yoloW b W))) =
      some ((round6 (clamp01 (yoloW b W)) : ℚ) / 1000000) ∧
    pyFloat (f6Chars (clamp01 (yoloH b H))) =
      some ((round6 (clamp01 (yoloH b H)) : ℚ) / 1000000) := by
  refine ⟨?_, rfl, splitChars_yoloLine b W H,
    ⟨clamp01_nonneg _, clamp01_le_one _⟩, ⟨clamp01_nonneg _, clamp01_le_one _⟩,
    ⟨clamp01_nonneg _, clamp01_le_one _⟩, ⟨clamp01_nonneg _, clamp01_le_one _⟩,
    pyInt_intChars _,
    pyFloat_f6Chars _ (clamp01_nonneg _) (clamp01_le_one _),
    pyFloat_f6Chars _ (clamp01_nonneg _) (clamp01_le_one _),
    pyFloat_f6Chars _ (clamp01_nonneg _) (clamp01_le_one _),
    pyFloat_f6Chars _ (clamp01_nonneg _) (clamp01_le_one _)⟩
  have hcx : clamp01 (yoloCx fishBox 1000) = 1 / 5 := by
    rw [show yoloCx fishBox 1000 = (100 + (100 + 200)) / 2 / 1000 from rfl]
    rw [clamp01_eq_self _ (by norm_num) (by norm_num)]
    norm_num
  have hcy : clamp01 (yoloCy fishBox 500) = 1 / 2 := by
    rw [show yoloCy fishBox 500 = (100 + (100 + 300)) / 2 / 500 from rfl]
    rw [clamp01_eq_self _ (by norm_num) (by norm_num)]
    norm_num
  have hw : clamp01 (yoloW fishBox 1000) = 1 / 5 := by
    rw [show yoloW fishBox 1000 = 200 / 1000 from rfl]
    rw [clamp01_eq_self _ (by norm_num) (by norm_num)]
    norm_num
  have hh : clamp01 (yoloH fishBox 500) = 3 / 5 := by
    rw [show yoloH fishBox 500 = 300 / 500 from rfl]
    rw [clamp01_eq_self _ (by norm_num) (by norm_num)]
    norm_num
  have hr1 : round6 (1 / 5 : ℚ) = 200000 := by rw [round6, round_eq]; norm_num
  have hr2 : round6 (1 / 2 : ℚ) = 500000 := by rw [round6, round_eq]; norm_num
  have hr3 : round6 (3 / 5 : ℚ) = 600000 := by rw [round6, round_eq]; norm_num
  have hf1 : f6Chars (1 / 5 : ℚ) = ['0', '.', '2', '0', '0', '0', '0', '0'] := by
    rw [show f6Chars (1 / 5 : ℚ) = Nat.digitChar ((round6 (1 / 5 : ℚ)).toNat / 1000000) ::
      '.' :: padDigits 6 ((round6 (1 / 5 : ℚ)).toNat % 1000000) from rfl, hr1]
    decide
  have hf2 : f6Chars (1 / 2 : ℚ) = ['0', '.', '5', '0', '0', '0', '0', '0'] := by
    rw [show f6Chars (1 / 2 : ℚ) = Nat.digitChar ((round6 (1 / 2 : ℚ)).toNat / 1000000) ::
      '.' :: padDigits 6 ((round6 (1 / 2 : ℚ)).toNat % 1000000) from rfl, hr2]
    decide
  have hf3 : f6Chars (3 / 5 : ℚ) = ['0', '.', '6', '0', '0', '0', '0', '0'] := by
    rw [show f6Chars (3 / 5 : ℚ) = Nat.digitChar ((round6 (3 / 5 : ℚ)).toNat / 1000000) ::
      '.' :: padDigits 6 ((round6 (3 / 5 : ℚ)).toNat % 1000000) from rfl, hr3]
    decide
  show String.mk (yoloLineChars fishBox 1000 500) = _
  unfold yoloLineChars
  rw [hcx, hcy, hw, hh, hf1, hf2, hf3]
  decide

/-- Witness for C3 at the out-of-range scenario line. -/
theorem from_yolo_format_contract_witness :
    from_yolo_format "0 1.5 0.5 0.2 0.2" 100 100 "c" = some
      { rect := { x := 140, y := 40, w := 20, h := 20 }, class_id := 0,
        class_name := "c", color := none } :=
  (from_yolo_format_contract "0 1.5 0.5 0.2 0.2" 100 100 "c").2.2

/-- C4 (code evidence): a 5-token line whose first token is not an
integer makes the loader's unguarded `int(parts[0])` raise, aborting the
whole file load — the well-formed second line is never loaded — while
the same well-formed line alone loads one box without aborting. -/
theorem load_annotations_abort_on_bad_class_id :
    load_annotations ["x 0.5 0.5 0.2 0.2", "0 0.5 0.5 0.25 0.25"] 100 100 [] =
      ([], true) ∧
    (load_annotations ["0 0.5 0.5 0.25 0.25"] 100 100 []).2 = false ∧
    (load_annotations ["0 0.5 0.5 0.25 0.25"] 100 100 []).1.length = 1 ∧
    ¬ wellFormedLine "x 0.5 0.5 0.2 0.2" ∧
    wellFormedLine "0 0.5 0.5 0.25 0.25" := by
  refine ⟨?_, ?_, ?_, ?_, ?_⟩ <;> decide

/-- The counterexample box for the relative-error round-trip claim:
a 100.0004-pixel-wide box in a 1000×1000 image. -/
def cexBox : BoundingBox :=
  { rect := ⟨0, 0, 1000004 / 10000, 100⟩, class_id := 0, class_name := "c", color := none }

/-- The decode of `cexBox`'s encoding: the width collapses to exactly
100 pixels after 6-decimal rounding. -/
def cexDecoded : BoundingBox :=
  { rect := ⟨0, 0, 100, 100⟩, class_id := 0, class_name := "c", color := none }

/-- C1 counterexample: for the box of width 100.0004 px in a 1000×1000
image (satisfying all of the claim's hypotheses), the round-tripped
normalized width differs from the original by a relative error of
4/1000004 ≈ 4·10⁻⁶ > 10⁻⁶, so the claimed 1e-6 relative tolerance is
false; only an absolute 1e-6 bound holds. -/
theorem codec_roundtrip_rel_counterexample :
    (1 ≤ cexBox.rect.w ∧ 1 ≤ cexBox.rect.h ∧ 0 ≤ cexBox.rect.x ∧
      cexBox.rect.x + cexBox.rect.w ≤ 1000 ∧ 0 ≤ cexBox.rect.y ∧
      cexBox.rect.y + cexBox.rect.h ≤ 1000) ∧
    from_yolo_format (to_yolo_format cexBox 1000 1000) 1000 1000 "c" = some cexDecoded ∧
    1 / 1000000 < |yoloW cexDecoded 1000 - yoloW cexBox 1000| / yoloW cexBox 1000 := by
  refine ⟨by norm_num [cexBox], ?_, ?_⟩
  · rw [from_to_yolo]
    unfold decodedBox
    have hcx : clamp01 (yoloCx cexBox 1000) = 1000004 / 20000000 := by
      rw [show yoloCx cexBox 1000 = (0 + (0 + 1000004 / 10000)) / 2 / 1000 from rfl]
      rw [clamp01_eq_self _ (by norm_num) (by norm_num)]
      norm_num
    have hcy : clamp01 (yoloCy cexBox 1000) = 1 / 20 := by
      rw [show yoloCy cexBox 1000 = (0 + (0 + 100)) / 2 / 1000 from rfl]
      rw [clamp01_eq_self _ (by norm_num) (by norm_num)]
      norm_num
    have hw : clamp01 (yoloW cexBox 1000) = 1000004 / 10000000 := by
      rw [show yoloW cexBox 1000 = 1000004 / 10000 / 1000 from rfl]
      rw [clamp01_eq_self _ (by norm_num) (by norm_num)]
      norm_num
    have hh : clamp01 (yoloH cexBox 1000) = 1 / 10 := by
      rw [show yoloH cexBox 1000 = 100 / 1000 from rfl]
      rw [clamp01_eq_self _ (by norm_num) (by norm_num)]
      norm_num
    rw [hcx, hcy, hw, hh]
    have hr1 : round6 (1000004 / 20000000 : ℚ) = 50000 := by
      rw [round6, round_eq]; norm_num
    have hr2 : round6 (1 / 20 : ℚ) = 50000 := by rw [round6, round_eq]; norm_num
    have hr3 : round6 (1000004 / 10000000 : ℚ) = 100000 := by
      rw [round6, round_eq]; norm_num
    have hr4 : round6 (1 / 10 : ℚ) = 100000 := by rw [round6, round_eq]; norm_num
    rw [hr1, hr2, hr3, hr4]
    norm_num [cexBox, cexDecoded, BoundingBox.mk.injEq, Rect.mk.injEq]
  · rw [show yoloW cexDecoded 1000 = 100 / 1000 from rfl,
      show yoloW cexBox 1000 = 1000004 / 10000 / 1000 from rfl]
    rw [show (100 / 1000 : ℚ) - 1000004 / 10000 / 1000 = -(4 / 10000000) by norm_num,
      abs_neg, abs_of_nonneg (by norm_num : (0:ℚ) ≤ 4 / 10000000)]
    norm_num

/-- C1 amended: for every box with width and height at least 1 pixel
lying fully inside the `W × H` image (`W, H > 0`), decoding the encoded
line succeeds and reproduces each of the four normalized fields within
1e-6 absolute error (the 6-decimal rounding loses at most 5·10⁻⁷ per
field; the claimed relative 1e-6 tolerance fails for small fields). -/
theorem codec_roundtrip_abs (b : BoundingBox) (W H : ℚ) (nm : String)
    (hW : 0 < W) (hH : 0 < H) (hw1 : 1 ≤ b.rect.w) (hh1 : 1 ≤ b.rect.h)
    (hx0 : 0 ≤ b.rect.x) (hxW : b.rect.x + b.rect.w ≤ W)
    (hy0 : 0 ≤ b.rect.y) (hyH : b.rect.y + b.rect.h ≤ H) :
    ∃ b', from_yolo_format (to_yolo_format b W H) W H nm = some b' ∧
      |yoloCx b' W - yoloCx b W| ≤ 1 / 1000000 ∧
      |yoloCy b' H - yoloCy b H| ≤ 1 / 1000000 ∧
      |yoloW b' W - yoloW b W| ≤ 1 / 1000000 ∧
      |yoloH b' H - yoloH b H| ≤ 1 / 1000000 := by
  have hW' : W ≠ 0 := ne_of_gt hW
  have hH' : H ≠ 0 := ne_of_gt hH
  have hxleW : b.rect.x ≤ W := by linarith
  have hyleH : b.rect.y ≤ H := by linarith
  have hcxB : 0 ≤ yoloCx b W ∧ yoloCx b W ≤ 1 := by
    unfold yoloCx Rect.left Rect.right
    constructor
    · exact div_nonneg (div_nonneg (by linarith) (by norm_num)) (le_of_lt hW)
    · rw [div_le_one hW, div_le_iff (by norm_num : (0:ℚ) < 2)]
      linarith
  have hcyB : 0 ≤ yoloCy b H ∧ yoloCy b H ≤ 1 := by
    unfold yoloCy Rect.top Rect.bottom
    constructor
    · exact div_nonneg (div_nonneg (by linarith) (by norm_num)) (le_of_lt hH)
    · rw [div_le_one hH, div_le_iff (by norm_num : (0:ℚ) < 2)]
      linarith
  have hwB : 0 ≤ yoloW b W ∧ yoloW b W ≤ 1 := by
    unfold yoloW
    exact ⟨div_nonneg (by linarith) (le_of_lt hW), by rw [div_le_one hW]; linarith⟩
  have hhB : 0 ≤ yoloH b H ∧ yoloH b H ≤ 1 := by
    unfold yoloH
    exact ⟨div_nonneg (by linarith) (le_of_lt hH), by rw [div_le_one hH]; linarith⟩
  refine ⟨decodedBox b W H nm, from_to_yolo b W H nm, ?_, ?_, ?_, ?_⟩
  · have heq : yoloCx (decodedBox b W H nm) W =
        (round6 (clamp01 (yoloCx b W)) : ℚ) / 1000000 := by
      unfold decodedBox yoloCx Rect.left Rect.right
      dsimp only
      field_simp
      ring
    rw [heq, clamp01_eq_self _ hcxB.1 hcxB.2]
    exact round6_approx _
  · have heq : yoloCy (decodedBox b W H nm) H =
        (round6 (clamp01 (yoloCy b H)) : ℚ) / 1000000 := by
      unfold decodedBox yoloCy Rect.top Rect.bottom
      dsimp only
      field_simp
      ring
    rw [heq, clamp01_eq_self _ hcyB.1 hcyB.2]
    exact round6_approx _
  · have heq : yoloW (decodedBox b W H nm) W =
        (round6 (clamp01 (yoloW b W)) : ℚ) / 1000000 := by
      unfold decodedBox yoloW
      dsimp only
      exact mul_div_cancel_right₀ _ hW'
    rw [heq, clamp01_eq_self _ hwB.1 hwB.2]
    exact round6_approx _
  · have heq : yoloH (decodedBox b W H nm) H =
        (round6 (clamp01 (yoloH b H)) : ℚ) / 1000000 := by
      unfold decodedBox yoloH
      dsimp only
      exact mul_div_cancel_right₀ _ hH'
    rw [heq, clamp01_eq_self _ hhB.1 hhB.2]
    exact round6_approx _

/-- Witness for the amended C1 theorem at the concrete scenario box. -/
theorem codec_roundtrip_abs_witness :
    ((0:ℚ) < 1000 ∧ (0:ℚ) < 500 ∧ 1 ≤ fishBox.rect.w ∧ 1 ≤ fishBox.rect.h ∧
      0 ≤ fishBox.rect.x ∧ fishBox.rect.x + fishBox.rect.w ≤ 1000 ∧
      0 ≤ fishBox.rect.y ∧ fishBox.rect.y + fishBox.rect.h ≤ 500) ∧
    (∃ b', from_yolo_format (to_yolo_format fishBox 1000 500) 1000 500 "fish" = some b' ∧
      |yoloCx b' 1000 - yoloCx fishBox 1000| ≤ 1 / 1000000 ∧
      |yoloCy b' 500 - yoloCy fishBox 500| ≤ 1 / 1000000 ∧
      |yoloW b' 1000 - yoloW fishBox 1000| ≤ 1 / 1000000 ∧
      |yoloH b' 500 - yoloH fishBox 500| ≤ 1 / 1000000) :=
  ⟨by norm_num [fishBox],
   codec_roundtrip_abs fishBox 1000 500 "fish" (by norm_num) (by norm_num)
     (by norm_num [fishBox]) (by norm_num [fishBox]) (by norm_num [fishBox])
     (by norm_num [fishBox]) (by norm_num [fishBox]) (by norm_num [fishBox])⟩

/-! Helper lemmas about snapshots and the history stacks. -/

theorem stripBox_idem (b : BoundingBox) : stripBox (stripBox b) = stripBox b := rfl

theorem snap_snap (bs : List BoundingBox) : snap (snap bs) = snap bs := by
  simp only [snap, List.map_map]
  rfl

theorem snap_boxData (bs : List BoundingBox) : (snap bs).map boxData = bs.map boxData := by
  simp only [snap, List.map_map]
  rfl

theorem snap_color (bs : List BoundingBox) : ∀ b ∈ snap bs, b.color = none := by
  intro b hb
  simp only [snap, List.mem_map] at hb
  obtain ⟨a, _, rfl⟩ := hb
  rfl

theorem undo_eq (s : Scene) (e : List BoundingBox) (rest : List (List BoundingBox))
    (h : s.undo_stack = e :: rest) :
    undo s = { s with boxes := snap e, selected_box := none, undo_stack := rest,
                      redo_stack := snap s.boxes :: s.redo_stack } := by
  rcases s with ⟨bx, sel, cid, cn, ccc, us, rs⟩
  dsimp at h
  subst h
  rfl

theorem redo_eq (s : Scene) (e : List BoundingBox) (rest : List (List BoundingBox))
    (h : s.redo_stack = e :: rest) :
    redo s = { s with boxes := snap e, selected_box := none,
                      undo_stack := snap s.boxes :: s.undo_stack, redo_stack := rest } := by
  rcases s with ⟨bx, sel, cid, cn, ccc, us, rs⟩
  dsimp at h
  subst h
  rfl

/-- The box sequence after a list of mutating operations. -/
def chainBoxes (fs : List (List BoundingBox → List BoundingBox)) (b : List BoundingBox) :
    List BoundingBox :=
  fs.foldl (fun x f => f x) b

/-- The undo-stack entries pushed by a list of mutating operations
(most recent first). -/
def mutTrace : List (List BoundingBox → List BoundingBox) → List BoundingBox →
    List (List BoundingBox)
  | [], _ => []
  | f :: fs, b => mutTrace fs (f b) ++ [snap b]

theorem mutTrace_length (fs : List (List BoundingBox → List BoundingBox))
    (b : List BoundingBox) : (mutTrace fs b).length = fs.length := by
  induction fs generalizing b with
  | nil => rfl
  | cons f fs ih => simp [mutTrace, ih]

theorem mutTrace_stripped (fs : List (List BoundingBox → List BoundingBox))
    (b : List BoundingBox) : ∀ e ∈ mutTrace fs b, snap e = e := by
  induction fs generalizing b with
  | nil => intro e he; simp [mutTrace] at he
  | cons f fs ih =>
      intro e he
      simp only [mutTrace, List.mem_append, List.mem_singleton] at he
      rcases he with he | rfl
      · exact ih (f b) e he
      · exact snap_snap b

theorem applyMuts_closed_form (fs : List (List BoundingBox → List BoundingBox)) :
    ∀ s : Scene, s.redo_stack = [] →
      applyMuts fs s = { s with boxes := chainBoxes fs s.boxes,
                                undo_stack := mutTrace fs s.boxes ++ s.undo_stack,
                                redo_stack := [] } := by
  induction fs with
  | nil =>
      intro s hs
      rcases s with ⟨bx, sel, cid, cn, ccc, us, rs⟩
      dsimp at hs
      subst hs
      rfl
  | cons f fs ih =>
      intro s hs
      show applyMuts fs (applyMut f s) = _
      rw [ih (applyMut f s) rfl]
      rcases s with ⟨bx, sel, cid, cn, ccc, us, rs⟩
      simp [applyMut, save_state, chainBoxes, mutTrace, List.append_assoc]

theorem undoN_closed_form (init : List (List BoundingBox)) :
    ∀ (last : List BoundingBox), (∀ e ∈ init, snap e = e) → snap last = last →
    ∀ s : Scene, s.undo_stack = init ++ [last] →
      undoN (init ++ [last]).length s =
        { s with boxes := last, selected_box := none, undo_stack := [],
                 redo_stack := init.reverse ++ snap s.boxes :: s.redo_stack } := by
  induction init with
  | nil =>
      intro last _ hlast s hs
      show undoN 1 s = _
      have h1 : undoN 1 s = undo s := rfl
      rw [h1, undo_eq s last [] hs, hlast]
      simp
  | cons u init ih =>
      intro last hinit hlast s hs
      have hu : snap u = u := hinit u (by simp)
      have hlen : ((u :: init) ++ [last]).length = (init ++ [last]).length + 1 := by simp
      rw [hlen]
      have hstep : undoN ((init ++ [last]).length + 1) s =
          undoN (init ++ [last]).length (undo s) := rfl
      rw [hstep, undo_eq s u (init ++ [last]) hs]
      rw [ih last (fun e he => hinit e (by simp [he])) hlast _ rfl]
      rcases s with ⟨bx, sel, cid, cn, ccc, us, rs⟩
      simp [snap_snap, hu, List.append_assoc]

theorem redoN_closed_form (init : List (List BoundingBox)) :
    ∀ (last : List BoundingBox), (∀ e ∈ init, snap e = e) → snap last = last →
    ∀ s : Scene, s.redo_stack = init ++ [last] →
      redoN (init ++ [last]).length s =
        { s with boxes := last, selected_box := none, redo_stack := [],
                 undo_stack := init.reverse ++ snap s.boxes :: s.undo_stack } := by
  induction init with
  | nil =>
      intro last _ hlast s hs
      show redoN 1 s = _
      have h1 : redoN 1 s = redo s := rfl
      rw [h1, redo_eq s last [] hs, hlast]
      simp
  | cons u init ih =>
      intro last hinit hlast s hs
      have hu : snap u = u := hinit u (by simp)
      have hlen : ((u :: init) ++ [last]).length = (init ++ [last]).length + 1 := by simp
      rw [hlen]
      have hstep : redoN ((init ++ [last]).length + 1) s =
          redoN (init ++ [last]).length (redo s) := rfl
      rw [hstep, redo_eq s u (init ++ [last]) hs]
      rw [ih last (fun e he => hinit e (by simp [he])) hlast _ rfl]
      rcases s with ⟨bx, sel, cid, cn, ccc, us, rs⟩
      simp [snap_snap, hu, List.append_assoc]

/-! Claim theorems for the document and history components. -/

/-- A concrete scene with one box and empty history, used as the failed-delete
counterexample input. -/
def oneBoxScene : Scene :=
  { boxes := [{ rect := ⟨0, 0, 20, 20⟩, class_id := 0, class_name := "c", color := none }],
    selected_box := none, current_class_id := 0, current_class_name := "c",
    class_custom_colors := [], undo_stack := [], redo_stack := [] }

/-- C5 counterexample: deleting with the out-of-range index 5 on a
one-box document does not fail — it returns normally with the box
sequence unchanged — and it does push a history snapshot: the undo stack
grows from empty to one entry, contradicting the claim that a failed
call leaves the undo stack unchanged and raises `IndexError`. -/
theorem delete_out_of_range_counterexample :
    (delete_selected_boxes oneBoxScene [5]).boxes = oneBoxScene.boxes ∧
    (delete_selected_boxes oneBoxScene [5]).undo_stack ≠ oneBoxScene.undo_stack ∧
    (delete_selected_boxes oneBoxScene [5]).undo_stack = [snap oneBoxScene.boxes] := by
  refine ⟨rfl, ?_, rfl⟩
  decide

/-- C5 amended: `delete_selected_boxes` with an out-of-range index (negative
or `≥ len(boxes)`) raises no error and silently skips the index, leaving
the box sequence unmutated, but it unconditionally pushes a history
snapshot first (undo stack gains the pre-call state, redo stack is
cleared) and clears the selection even for the no-op. -/
theorem delete_out_of_range_silent_skip (s : Scene) (i : ℤ)
    (h : i < 0 ∨ (s.boxes.length : ℤ) ≤ i) :
    (delete_selected_boxes s [i]).boxes = s.boxes ∧
    (delete_selected_boxes s [i]).undo_stack = snap s.boxes :: s.undo_stack ∧
    (delete_selected_boxes s [i]).redo_stack = [] ∧
    (delete_selected_boxes s [i]).selected_box = none := by
  have hs : sortDesc [i] = [i] := rfl
  have hcond : ¬ (0 ≤ i ∧ i < (s.boxes.length : ℤ)) := by omega
  unfold delete_selected_boxes
  rw [hs]
  simp [save_state, hcond]

/-- Witness for the amended C5 theorem at a concrete out-of-range call. -/
theorem delete_out_of_range_silent_skip_witness :
    (delete_selected_boxes oneBoxScene [5]).boxes = oneBoxScene.boxes ∧
    (delete_selected_boxes oneBoxScene [5]).undo_stack =
      snap oneBoxScene.boxes :: oneBoxScene.undo_stack ∧
    (delete_selected_boxes oneBoxScene [5]).redo_stack = [] ∧
    (delete_selected_boxes oneBoxScene [5]).selected_box = none :=
  delete_out_of_range_silent_skip oneBoxScene 5 (by decide)

/-- C6: starting from the empty document, after any sequence of N
mutating operations (each in the code's shape: `save_state()` then a
box-sequence update), N undos restore the empty box sequence with an
empty undo stack, and N redos after that reproduce the box sequence
after all N operations exactly in geometry (`rect`) and class
(`class_id`, `class_name`); moreover `undo` pushes the live state onto
the redo stack before restoring the popped undo entry, and `redo` is the
mirror. -/
theorem undo_redo_symmetry (fs : List (List BoundingBox → List BoundingBox)) :
    ((undoN fs.length (applyMuts fs emptyScene)).boxes = [] ∧
     (undoN fs.length (applyMuts fs emptyScene)).undo_stack = [] ∧
     (redoN fs.length (undoN fs.length (applyMuts fs emptyScene))).boxes.map boxData =
       (applyMuts fs emptyScene).boxes.map boxData) ∧
    (∀ (s : Scene) (e : List BoundingBox) (rest : List (List BoundingBox)),
      s.undo_stack = e :: rest →
        (undo s).redo_stack = snap s.boxes :: s.redo_stack ∧
        (undo s).boxes = snap e ∧ (undo s).undo_stack = rest) ∧
    (∀ (s : Scene) (e : List BoundingBox) (rest : List (List BoundingBox)),
      s.redo_stack = e :: rest →
        (redo s).undo_stack = snap s.boxes :: s.undo_stack ∧
        (redo s).boxes = snap e ∧ (redo s).redo_stack = rest) := by
  refine ⟨?_, ?_, ?_⟩
  · match fs with
    | [] => exact ⟨rfl, rfl, rfl⟩
    | f :: fs' =>
        have hsN := applyMuts_closed_form (f :: fs') emptyScene rfl
        set sN := applyMuts (f :: fs') emptyScene with hdefN
        have hboxesN : sN.boxes = chainBoxes (f :: fs') [] := by rw [hsN]; rfl
        have hundoN : sN.undo_stack = mutTrace fs' (f []) ++ [snap []] := by
          rw [hsN]
          show mutTrace (f :: fs') [] ++ [] = mutTrace fs' (f []) ++ [snap []]
          rw [List.append_nil]
          rfl
        have hredoN : sN.redo_stack = [] := by rw [hsN]
        have hlen : (f :: fs').length = (mutTrace fs' (f []) ++ [snap []]).length := by
          simp [mutTrace_length]
        have hU := undoN_closed_form (mutTrace fs' (f [])) (snap [])
          (mutTrace_stripped fs' (f [])) (snap_snap []) sN hundoN
        rw [hlen]
        rw [hU]
        refine ⟨rfl, rfl, ?_⟩
        have hlen2 : (mutTrace fs' (f []) ++ [snap []]).length =
            ((mutTrace fs' (f [])).reverse ++ [snap sN.boxes]).length := by simp
        have hR := redoN_closed_form (mutTrace fs' (f [])).reverse (snap sN.boxes)
          (fun e he => mutTrace_stripped fs' (f []) e (List.mem_reverse.mp he))
          (snap_snap sN.boxes)
          { sN with boxes := snap [], selected_box := none, undo_stack := [],
                    redo_stack := (mutTrace fs' (f [])).reverse ++
                      snap sN.boxes :: sN.redo_stack }
          (by rw [hredoN])
        rw [hlen2, hR]
        exact snap_boxData sN.boxes
  · intro s e rest h
    rw [undo_eq s e rest h]
    exact ⟨rfl, rfl, rfl⟩
  · intro s e rest h
    rw [redo_eq s e rest h]
    exact ⟨rfl, rfl, rfl⟩

/-- Witness for C6 at a concrete one-operation sequence and concrete
undo/redo calls. -/
theorem undo_redo_symmetry_witness :
    ((undoN 1 (applyMuts [fun bs => bs ++ oneBoxScene.boxes] emptyScene)).boxes = [] ∧
     (undoN 1 (applyMuts [fun bs => bs ++ oneBoxScene.boxes] emptyScene)).undo_stack = [] ∧
     (redoN 1 (undoN 1 (applyMuts [fun bs => bs ++ oneBoxScene.boxes]
        emptyScene))).boxes.map boxData =
       (applyMuts [fun bs => bs ++ oneBoxScene.boxes] emptyScene).boxes.map boxData) ∧
    ((undo { oneBoxScene with undo_stack := [[]] }).redo_stack =
       snap oneBoxScene.boxes :: oneBoxScene.redo_stack ∧
     (undo { oneBoxScene with undo_stack := [[]] }).boxes = snap [] ∧
     (undo { oneBoxScene with undo_stack := [[]] }).undo_stack = []) ∧
    ((redo { oneBoxScene with redo_stack := [[]] }).undo_stack =
       snap oneBoxScene.boxes :: oneBoxScene.undo_stack ∧
     (redo { oneBoxScene with redo_stack := [[]] }).boxes = snap [] ∧
     (redo { oneBoxScene with redo_stack := [[]] }).redo_stack = []) := by
  obtain ⟨h1, h2, h3⟩ := undo_redo_symmetry [fun bs => bs ++ oneBoxScene.boxes]
  exact ⟨h1, h2 { oneBoxScene with undo_stack := [[]] } [] [] rfl,
         h3 { oneBoxScene with redo_stack := [[]] } [] [] rfl⟩

/-- C7: on pointer release ending a draw, the provisional box is
committed (appended under the current class id, name and display color)
if and only if both its width and height exceed 5 pixels; the history
snapshot (undo push and redo clear) happens exactly on a successful
commit, so a discarded draw leaves both history stacks unchanged; in
particular a 4×4 drag never adds a box and a 6×6 drag always does. -/
theorem commit_draw_min_size (s : Scene) (r : Rect) :
    ((mouseReleaseCommit s r).boxes =
      if 5 < r.w ∧ 5 < r.h then
        s.boxes ++ [{ rect := r, class_id := s.current_class_id,
                      class_name := s.current_class_name,
                      color := some (get_box_color s s.current_class_id) }]
      else s.boxes) ∧
    ((mouseReleaseCommit s r).undo_stack =
      if 5 < r.w ∧ 5 < r.h then snap s.boxes :: s.undo_stack else s.undo_stack) ∧
    ((mouseReleaseCommit s r).redo_stack =
      if 5 < r.w ∧ 5 < r.h then [] else s.redo_stack) ∧
    (∀ x y : ℚ, mouseReleaseCommit s ⟨x, y, 4, 4⟩ = s) ∧
    (∀ x y : ℚ, (mouseReleaseCommit s ⟨x, y, 6, 6⟩).boxes =
      s.boxes ++ [{ rect := ⟨x, y, 6, 6⟩, class_id := s.current_class_id,
                    class_name := s.current_class_name,
                    color := some (get_box_color s s.current_class_id) }]) := by
  refine ⟨?_, ?_, ?_, ?_, ?_⟩
  · by_cases h : 5 < r.w ∧ 5 < r.h <;> simp [mouseReleaseCommit, save_state, h]
  · by_cases h : 5 < r.w ∧ 5 < r.h <;> simp [mouseReleaseCommit, save_state, h]
  · by_cases h : 5 < r.w ∧ 5 < r.h <;> simp [mouseReleaseCommit, save_state, h]
  · intro x y
    have h : ¬ ((5 : ℚ) < (Rect.mk x y 4 4).w ∧ (5 : ℚ) < (Rect.mk x y 4 4).h) := by
      show ¬ ((5 : ℚ) < 4 ∧ (5 : ℚ) < 4)
      norm_num
    unfold mouseReleaseCommit
    rw [if_neg h]
  · intro x y
    have h : (5 : ℚ) < 6 ∧ (5 : ℚ) < 6 := by norm_num
    simp [mouseReleaseCommit, save_state, h]

/-- C8 counterexample: dragging the top-left handle of the rectangle
`(0,0)-(20,20)` by `(+35, 0)` inverts the rectangle horizontally; its
normalized form `(20,0)-(35,20)` has width 15 > 10 and height 20 > 10,
so by the claim (adjust, normalize, then reject only if the resulting
width or height is ≤ 10) the resize would be committed — but the code
checks the signed pre-normalization width (-15 ≤ 10) and leaves the
rectangle completely unchanged, so the claimed behavior differs from the
code's. -/
theorem resize_inverted_drag_counterexample :
    resizeMove ⟨true, false, true, false⟩ ⟨0, 0, 20, 20⟩ ⟨35, 0⟩ = ⟨0, 0, 20, 20⟩ ∧
    10 < ((adjustRect ⟨true, false, true, false⟩ ⟨0, 0, 20, 20⟩ ⟨35, 0⟩).normalized).w ∧
    10 < ((adjustRect ⟨true, false, true, false⟩ ⟨0, 0, 20, 20⟩ ⟨35, 0⟩).normalized).h ∧
    (adjustRect ⟨true, false, true, false⟩ ⟨0, 0, 20, 20⟩ ⟨35, 0⟩).normalized ≠
      ⟨0, 0, 20, 20⟩ ∧
    resizeMoveSpec ⟨true, false, true, false⟩ ⟨0, 0, 20, 20⟩ ⟨35, 0⟩ ≠
      resizeMove ⟨true, false, true, false⟩ ⟨0, 0, 20, 20⟩ ⟨35, 0⟩ := by
  refine ⟨?_, ?_, ?_, ?_, ?_⟩ <;>
    norm_num [resizeMoveSpec, resizeMove, adjustRect, Rect.setTop, Rect.setBottom,
      Rect.setLeft, Rect.setRight, Rect.normalized, Rect.left, Rect.right, Rect.top,
      Rect.bottom, min_def, max_def, Rect.mk.injEq]

/-- C8 amended: resize adjusts exactly the flagged edges of the pre-drag
rectangle by the total drag delta; the adjusted rectangle is committed
(its normalization is the identity then, since both dimensions are
positive) if and only if its signed, pre-normalization width and height
both exceed 10 pixels, and otherwise the rectangle is left completely
unchanged — in particular a drag inverting the rectangle is always
rejected. -/
theorem resize_floor_characterization (p : HandlePos) (start : Rect) (d : Delta) :
    (adjustRect p start d).left =
      (if p.hasLeft then start.left + d.dx else start.left) ∧
    (adjustRect p start d).right =
      (if p.hasRight then start.right + d.dx else start.right) ∧
    (adjustRect p start d).top =
      (if p.hasTop then start.top + d.dy else start.top) ∧
    (adjustRect p start d).bottom =
      (if p.hasBottom then start.bottom + d.dy else start.bottom) ∧
    resizeMove p start d =
      (if 10 < (adjustRect p start d).w ∧ 10 < (adjustRect p start d).h then
        adjustRect p start d
      else start) := by
  have hnorm : ∀ r : Rect, 0 < r.w → 0 < r.h → r.normalized = r := by
    intro r hw hh
    rcases r with ⟨x, y, w, h⟩
    replace hw : 0 < w := hw
    replace hh : 0 < h := hh
    show Rect.mk (min x (x + w)) (min y (y + h)) (max x (x + w) - min x (x + w))
      (max y (y + h) - min y (y + h)) = Rect.mk x y w h
    rw [min_eq_left (by linarith : x ≤ x + w), max_eq_right (by linarith : x ≤ x + w),
      min_eq_left (by linarith : y ≤ y + h), max_eq_right (by linarith : y ≤ y + h)]
    simp only [Rect.mk.injEq]
    refine ⟨trivial, trivial, by ring, by ring⟩
  rcases p with ⟨t, b, l, rt⟩
  refine ⟨?_, ?_, ?_, ?_, ?_⟩
  · cases t <;> cases b <;> cases l <;> cases rt <;>
      simp [adjustRect, Rect.setTop, Rect.setBottom, Rect.setLeft, Rect.setRight,
        Rect.left, Rect.right, Rect.top, Rect.bottom] <;> ring
  · cases t <;> cases b <;> cases l <;> cases rt <;>
      simp [adjustRect, Rect.setTop, Rect.setBottom, Rect.setLeft, Rect.setRight,
        Rect.left, Rect.right, Rect.top, Rect.bottom] <;> ring
  · cases t <;> cases b <;> cases l <;> cases rt <;>
      simp [adjustRect, Rect.setTop, Rect.setBottom, Rect.setLeft, Rect.setRight,
        Rect.left, Rect.right, Rect.top, Rect.bottom] <;> ring
  · cases t <;> cases b <;> cases l <;> cases rt <;>
      simp [adjustRect, Rect.setTop, Rect.setBottom, Rect.setLeft, Rect.setRight,
        Rect.left, Rect.right, Rect.top, Rect.bottom] <;> ring
  · by_cases hc : 10 < (adjustRect ⟨t, b, l, rt⟩ start d).w ∧
        10 < (adjustRect ⟨t, b, l, rt⟩ start d).h
    · rw [if_pos hc]
      unfold resizeMove
      rw [if_pos hc]
      exact hnorm _ (by linarith [hc.1]) (by linarith [hc.2])
    · rw [if_neg hc]
      unfold resizeMove
      rw [if_neg hc]

/-- C9 counterexample: with the single class id 2 named "fish", the
internal `save_classes` writer emits the bare line `fish` (not the
`[id] name` form at all), and `save_classes_file` emits `[0] fish` —
the `enumerate` position — instead of `[2] fish` with the class's actual
id, so the claim that every written line is `[<id>] <name>` with the
actual id is false. -/
theorem class_file_write_counterexample :
    save_classes_lines [(2, "fish")] = ["fish"] ∧
    save_classes_file_lines [(2, "fish")] = ["[0] fish"] ∧
    ("fish" : String) ≠ "[2] fish" ∧
    ("[0] fish" : String) ≠ "[2] fish" := by
  refine ⟨?_, ?_, ?_, ?_⟩ <;> decide

/-- C9 amended: the class-list writers do not emit `[<actual id>]
<name>` lines — `save_classes` writes the bare `<name>` form (one name
per line, ordered by ascending id), and `save_classes_file` writes
`[<k>] <name>` where `k` is the 0-based position of the class in the
id-sorted list, which equals the actual id only when the ids are exactly
`0..n-1`. -/
theorem class_file_write_forms (m : List (ℤ × String)) (k : ℕ) :
    save_classes_lines m = classesOf m ∧
    (save_classes_file_lines m).get? k =
      ((classesOf m).get? k).map
        (fun nm => "[" ++ String.mk (natChars k) ++ "] " ++ nm) := by
  refine ⟨rfl, ?_⟩
  unfold save_classes_file_lines
  rw [List.get?_map, List.get?_enum]
  cases (classesOf m).get? k <;> rfl

/-- A box carrying a per-box color override. -/
def coloredBox : BoundingBox :=
  { rect := ⟨1, 2, 30, 40⟩, class_id := 3, class_name := "fish",
    color := some ⟨255, 0, 0, 150⟩ }

/-- A concrete scene with a colored box and non-empty history stacks. -/
def coloredScene : Scene :=
  { boxes := [coloredBox], selected_box := none, current_class_id := 3,
    current_class_name := "fish", class_custom_colors := [],
    undo_stack := [[coloredBox]], redo_stack := [[coloredBox]] }

/-- C10: history snapshots carry only geometry and class, not color —
`save_state` pushes copies built without the `color` field, and
`restore_state` (hence `undo` and `redo`) rebuilds boxes the same way,
so after any undo or redo every box in the document has `color = none`
while `rect`, `class_id` and `class_name` are preserved exactly. -/
theorem history_snapshot_drops_color (s : Scene) (e : List BoundingBox)
    (rest : List (List BoundingBox)) :
    ((save_state s).undo_stack = snap s.boxes :: s.undo_stack) ∧
    ((snap s.boxes).map boxData = s.boxes.map boxData) ∧
    (∀ b ∈ snap s.boxes, b.color = none) ∧
    (s.undo_stack = e :: rest →
      (undo s).boxes.map boxData = e.map boxData ∧
      ∀ b ∈ (undo s).boxes, b.color = none) ∧
    (s.redo_stack = e :: rest →
      (redo s).boxes.map boxData = e.map boxData ∧
      ∀ b ∈ (redo s).boxes, b.color = none) := by
  refine ⟨rfl, snap_boxData _, snap_color _, ?_, ?_⟩
  · intro h
    rw [undo_eq s e rest h]
    exact ⟨snap_boxData e, snap_color e⟩
  · intro h
    rw [redo_eq s e rest h]
    exact ⟨snap_boxData e, snap_color e⟩

/-- Witness for C10 at a concrete scene whose live box has a color
override and whose stacks are non-empty. -/
theorem history_snapshot_drops_color_witness :
    ((save_state coloredScene).undo_stack =
      snap coloredScene.boxes :: coloredScene.undo_stack) ∧
    ((snap coloredScene.boxes).map boxData = coloredScene.boxes.map boxData) ∧
    (∀ b ∈ snap coloredScene.boxes, b.color = none) ∧
    ((undo coloredScene).boxes.map boxData = coloredScene.boxes.map boxData ∧
      ∀ b ∈ (undo coloredScene).boxes, b.color = none) ∧
    ((redo coloredScene).boxes.map boxData = coloredScene.boxes.map boxData ∧
      ∀ b ∈ (redo coloredScene).boxes, b.color = none) := by
  obtain ⟨h1, h2, h3, h4, h5⟩ :=
    history_snapshot_drops_color coloredScene coloredScene.boxes []
  exact ⟨h1, h2, h3, h4 rfl, h5 rfl⟩

end YoloAnnotator
